import Mathlib

/-!
Verification development for the Zillopoly repository.

The batch-variant `Zillopoly` Solidity contract (real-estate higher/lower
guessing game) is shallowly embedded here: `uint256`/`address`/`bytes32`
become `Nat` (Solidity 0.8 checked arithmetic reverts on overflow; all
quantities in this contract stay far below `2^256`, so `Nat` arithmetic
agrees with the source on every state the claims range over), the ERC-20
token is a balance/allowance ledger, and each external function becomes a
function `ZState → Except ZError …` where an error models an EVM revert
(the caller's state is unchanged).  The Express proxy endpoint
`GET /api/random-listing` is embedded at the end as a function from the
upstream response to an HTTP status and a JSON-like body.
-/

namespace Zillopoly

/-- Stage of a game, as in the Solidity `enum GameStage`. -/
inductive GameStage where
  | notStarted
  | initialized
  | guessSubmitted
  | settled
deriving DecidableEq, Repr

/-- Numeric index of a stage, in declaration order (the enum's value). -/
def GameStage.idx : GameStage → Nat
  | .notStarted => 0
  | .initialized => 1
  | .guessSubmitted => 2
  | .settled => 3

/-- The `Listing` struct of the contract.  `address` and `bytes32` are `Nat`. -/
structure Listing where
  gameId : Nat
  displayedPrice : Nat
  actualPrice : Nat
  higherOrLower : Bool
  listingId : Nat
  player : Nat
  timestamp : Nat
  stage : GameStage
  won : Bool
  payout : Nat
deriving DecidableEq, Repr

/-- `GAME_COST = 1000 * 10**18`. -/
def GAME_COST : Nat := 1000 * 10 ^ 18

/-- `BATCH_SIZE = 10`. -/
def BATCH_SIZE : Nat := 10

/-- `BATCH_COST = GAME_COST * BATCH_SIZE`. -/
def BATCH_COST : Nat := GAME_COST * BATCH_SIZE

/-- Pointwise update of a function, used for mapping writes. -/
def updFun (f : Nat → Nat) (k v : Nat) : Nat → Nat :=
  fun x => if x = k then v else f x

/-- The HOBO ERC-20 ledger: balances and allowances (owner → spender → amount). -/
structure TokenState where
  balances : Nat → Nat
  allowance : Nat → Nat → Nat

namespace TokenState

/-- ERC-20 `transferFrom(source, dest, amount)` executed by `spender`:
succeeds iff the allowance and the balance cover `amount`. -/
def transferFrom (t : TokenState) (spender source dest amount : Nat) :
    Option TokenState :=
  if amount ≤ t.allowance source spender ∧ amount ≤ t.balances source then
    let b1 := updFun t.balances source (t.balances source - amount)
    some { balances := updFun b1 dest (b1 dest + amount)
           allowance := fun o sp =>
             if o = source ∧ sp = spender then t.allowance source spender - amount
             else t.allowance o sp }
  else none

/-- ERC-20 `transfer(dest, amount)` from `source`: succeeds iff the balance
covers `amount`. -/
def transfer (t : TokenState) (source dest amount : Nat) : Option TokenState :=
  if amount ≤ t.balances source then
    let b1 := updFun t.balances source (t.balances source - amount)
    some { t with balances := updFun b1 dest (b1 dest + amount) }
  else none

end TokenState

/-- The contract's storage: `nextGameId`, the three copies of each game
(`playerListings`, `gameById`, `allGames`), the `Ownable` owner, the HOBO
token ledger, and the contract's own address. -/
structure ZState where
  nextGameId : Nat
  playerListings : Nat → List Listing
  gameById : Nat → Listing
  allGames : List Listing
  owner : Nat
  token : TokenState
  contractAddr : Nat

/-- Revert reasons of the contract (each `require` string / modifier). -/
inductive ZError where
  | transferFailed
  | invalidGameId
  | invalidListingId
  | invalidPrice
  | alreadyInitialized
  | notYourGame
  | wrongStage
  | notOwner
  | payoutFailed
  | insufficientBalance
deriving DecidableEq, Repr

/-- The empty game slot built inside `startGame`'s loop body. -/
def freshListing (id caller now : Nat) : Listing :=
  { gameId := id
    displayedPrice := 0
    actualPrice := 0
    higherOrLower := false
    listingId := 0
    player := caller
    timestamp := now
    stage := .notStarted
    won := false
    payout := 0 }

/-- The loop of `startGame`: create `k` empty slots, pushing each to
`playerListings[msg.sender]`, `gameById` and `allGames`, incrementing
`nextGameId` each iteration. -/
def createSlots (caller now : Nat) : Nat → ZState → ZState
  | 0, s => s
  | k + 1, s =>
    let L := freshListing s.nextGameId caller now
    createSlots caller now k
      { s with
        playerListings := fun p =>
          if p = caller then s.playerListings p ++ [L] else s.playerListings p
        gameById := fun i => if i = s.nextGameId then L else s.gameById i
        allGames := s.allGames ++ [L]
        nextGameId := s.nextGameId + 1 }

/-- `startGame()`: debit `BATCH_COST` via `transferFrom`, then create
`BATCH_SIZE` empty slots; returns `(startGameId, endGameId)`. -/
def startGame (caller now : Nat) (s : ZState) :
    Except ZError (ZState × Nat × Nat) :=
  match s.token.transferFrom caller caller s.contractAddr BATCH_COST with
  | none => .error .transferFailed
  | some tok =>
    let s2 := createSlots caller now BATCH_SIZE { s with token := tok }
    .ok (s2, s.nextGameId, s2.nextGameId - 1)

/-- First-match in-place replacement, as the linear scans with `break` in
`_updateListingInArrays`. -/
def replaceFirstById (gid : Nat) (g : Listing) : List Listing → List Listing
  | [] => []
  | x :: xs => if x.gameId = gid then g :: xs else x :: replaceFirstById gid g xs

/-- `_updateListingInArrays`: replace the matching entry in the updated
game's player's list and in `allGames`. -/
def updateListingInArrays (s : ZState) (gid : Nat) (g : Listing) : ZState :=
  { s with
    playerListings := fun p =>
      if p = g.player then replaceFirstById gid g (s.playerListings p)
      else s.playerListings p
    allGames := replaceFirstById gid g s.allGames }

/-- `initializeGame(gameId, listingId, displayedPrice)`, `onlyOwner`. -/
def initializeGame (caller gid lid price : Nat) (s : ZState) :
    Except ZError ZState :=
  if caller = s.owner then
    if 0 < gid ∧ gid < s.nextGameId then
      if lid ≠ 0 then
        if 0 < price then
          let g := s.gameById gid
          if g.stage = .notStarted then
            let g' := { g with listingId := lid, displayedPrice := price,
                               stage := .initialized }
            let s' := { s with gameById := fun i => if i = gid then g' else s.gameById i }
            .ok (updateListingInArrays s' gid g')
          else .error .alreadyInitialized
        else .error .invalidPrice
      else .error .invalidListingId
    else .error .invalidGameId
  else .error .notOwner

/-- `makeGuess(gameId, isHigher)`. -/
def makeGuess (caller gid : Nat) (isHigher : Bool) (s : ZState) :
    Except ZError ZState :=
  if 0 < gid ∧ gid < s.nextGameId then
    let g := s.gameById gid
    if g.player = caller then
      if g.stage = .initialized then
        let g' := { g with higherOrLower := isHigher, stage := .guessSubmitted }
        let s' := { s with gameById := fun i => if i = gid then g' else s.gameById i }
        .ok (updateListingInArrays s' gid g')
      else .error .wrongStage
    else .error .notYourGame
  else .error .invalidGameId

/-- The win rule computed inside `settleBet`. -/
def wins (higherOrLower : Bool) (displayed actual : Nat) : Bool :=
  (higherOrLower && decide (displayed < actual)) ||
  (!higherOrLower && decide (actual < displayed)) ||
  decide (actual = displayed)

/-- `settleBet(gameId, actualPrice)`, `onlyOwner`.  A failing payout
`transfer` reverts the whole call. -/
def settleBet (caller gid actual : Nat) (s : ZState) : Except ZError ZState :=
  if caller = s.owner then
    if 0 < gid ∧ gid < s.nextGameId then
      if 0 < actual then
        let g := s.gameById gid
        if g.stage = .guessSubmitted then
          let playerWon := wins g.higherOrLower g.displayedPrice actual
          let payout := if playerWon then GAME_COST * 2 else 0
          let g' := { g with actualPrice := actual, won := playerWon,
                             stage := .settled, payout := payout }
          if playerWon then
            match s.token.transfer s.contractAddr g.player payout with
            | none => .error .payoutFailed
            | some tok =>
              let s' := { s with
                gameById := fun i => if i = gid then g' else s.gameById i
                token := tok }
              .ok (updateListingInArrays s' gid g')
          else
            let s' := { s with gameById := fun i => if i = gid then g' else s.gameById i }
            .ok (updateListingInArrays s' gid g')
        else .error .wrongStage
      else .error .invalidPrice
    else .error .invalidGameId
  else .error .notOwner

/-- `withdrawFunds(amount)`, `onlyOwner`. -/
def withdrawFunds (caller amount : Nat) (s : ZState) : Except ZError ZState :=
  if caller = s.owner then
    if amount ≤ s.token.balances s.contractAddr then
      match s.token.transfer s.contractAddr caller amount with
      | none => .error .transferFailed
      | some tok => .ok { s with token := tok }
    else .error .insufficientBalance
  else .error .notOwner

/-- `getPlayerListings(player)`. -/
def getPlayerListings (s : ZState) (player : Nat) : List Listing :=
  s.playerListings player

/-- `getGame(gameId)`. -/
def getGame (s : ZState) (gid : Nat) : Except ZError Listing :=
  if 0 < gid ∧ gid < s.nextGameId then .ok (s.gameById gid)
  else .error .invalidGameId

/-- `getTotalGames()`. -/
def getTotalGames (s : ZState) : Nat :=
  s.allGames.length

/-- `getPlayerGamesByStage(player, stage)`. -/
def getPlayerGamesByStage (s : ZState) (player : Nat) (st : GameStage) : Nat :=
  ((s.playerListings player).filter (fun l => l.stage = st)).length

/-- `startGame` with EVM revert semantics: on error the state is unchanged. -/
def startGameRun (caller now : Nat) (s : ZState) : ZState :=
  match startGame caller now s with
  | .ok (s', _, _) => s'
  | .error _ => s

/-- `initializeGame` with revert semantics. -/
def initializeGameRun (caller gid lid price : Nat) (s : ZState) : ZState :=
  match initializeGame caller gid lid price s with
  | .ok s' => s'
  | .error _ => s

/-- `makeGuess` with revert semantics. -/
def makeGuessRun (caller gid : Nat) (isHigher : Bool) (s : ZState) : ZState :=
  match makeGuess caller gid isHigher s with
  | .ok s' => s'
  | .error _ => s

/-- `settleBet` with revert semantics. -/
def settleBetRun (caller gid actual : Nat) (s : ZState) : ZState :=
  match settleBet caller gid actual s with
  | .ok s' => s'
  | .error _ => s

/-- `withdrawFunds` with revert semantics. -/
def withdrawFundsRun (caller amount : Nat) (s : ZState) : ZState :=
  match withdrawFunds caller amount s with
  | .ok s' => s'
  | .error _ => s

/-- One external call to the contract (any caller, any arguments). -/
inductive Op where
  | start (caller now : Nat)
  | init (caller gid lid price : Nat)
  | guess (caller gid : Nat) (isHigher : Bool)
  | settle (caller gid actual : Nat)
  | withdraw (caller amount : Nat)

/-- Apply one external call with revert semantics. -/
def applyOp (op : Op) (s : ZState) : ZState :=
  match op with
  | .start caller now => startGameRun caller now s
  | .init caller gid lid price => initializeGameRun caller gid lid price s
  | .guess caller gid hi => makeGuessRun caller gid hi s
  | .settle caller gid actual => settleBetRun caller gid actual s
  | .withdraw caller amount => withdrawFundsRun caller amount s

/-- The contract's state right after the constructor: `nextGameId = 1`,
no games, deployer is the owner. -/
def initState (deployer : Nat) (tok : TokenState) (addr : Nat) : ZState :=
  { nextGameId := 1
    playerListings := fun _ => []
    gameById := fun _ => freshListing 0 0 0
    allGames := []
    owner := deployer
    token := tok
    contractAddr := addr }

/-- States reachable from deployment by any sequence of external calls. -/
inductive Reachable : ZState → Prop where
  | deploy (deployer : Nat) (tok : TokenState) (addr : Nat) :
      Reachable (initState deployer tok addr)
  | step (s : ZState) (op : Op) : Reachable s → Reachable (applyOp op s)

/-- The record written by a successful `initializeGame`. -/
def initializedListing (g : Listing) (lid price : Nat) : Listing :=
  { g with listingId := lid, displayedPrice := price, stage := .initialized }

/-- The record written by a successful `makeGuess`. -/
def guessedListing (g : Listing) (hi : Bool) : Listing :=
  { g with higherOrLower := hi, stage := .guessSubmitted }

/-- The record written by a successful `settleBet`. -/
def settledListing (g : Listing) (actual : Nat) : Listing :=
  { g with actualPrice := actual, won := wins g.higherOrLower g.displayedPrice actual
           stage := .settled
           payout := if wins g.higherOrLower g.displayedPrice actual then GAME_COST * 2 else 0 }

/-- The batch of empty slots `startGame` appends: ids `start … start + k - 1`. -/
def batchListings (caller now start k : Nat) : List Listing :=
  (List.range' start k).map (fun i => freshListing i caller now)

/-- Consistency of the three storage copies (the invariant the contract
maintains): ids in `allGames` are exactly `1 … nextGameId - 1` in order,
`gameById` agrees with `allGames`, every per-player list is exactly the
player's slice of `allGames`, and initialized games have a positive
displayed price. -/
def Inv (s : ZState) : Prop :=
  1 ≤ s.nextGameId ∧
  s.allGames.map (fun g => g.gameId) = List.range' 1 (s.nextGameId - 1) ∧
  (∀ g ∈ s.allGames, s.gameById g.gameId = g) ∧
  (∀ p, s.playerListings p = s.allGames.filter (fun g => g.player = p)) ∧
  (∀ g ∈ s.allGames, g.stage ≠ .notStarted → 0 < g.displayedPrice)

end Zillopoly

namespace ZillopolyApi

/-!
Embedding of the Express proxy (`src/api/src/index.js`).  The upstream
fetch, the random city/listing choice and the ±15% price adjustment are
nondeterministic or floating-point, so they enter as parameters: `respOk`
and `statusCode` describe the upstream HTTP response, `props` the parsed
`data.props` field (`none` for absent), `pick` the random index, and
`displayedPrice` the already-rounded adjusted price (the float arithmetic
of `getRandomPercentageAdjustment` and `Math.round` is abstracted into
this input; no claim depends on its value).  JSON values are modelled as
key/value trees so that the SHAPE of a response body is inspectable.
-/

/-- One element of the upstream `data.props` array (the fields the proxy
reads). -/
structure PropListing where
  zpid : Nat
  address : String
  price : Nat
  imgSrc : String
  bedrooms : Nat
  bathrooms : Nat
  livingArea : Nat
  homeType : String
  latitude : Int
  longitude : Int

/-- A JSON value (the fragment needed for these bodies). -/
inductive JVal where
  | jstr (s : String)
  | jnum (n : Int)
  | jbool (b : Bool)
  | jobj (fields : List (String × JVal))

/-- Does a JSON object have a top-level key? -/
def hasKey (v : JVal) (k : String) : Bool :=
  match v with
  | .jobj fs => fs.any (fun f => f.fst == k)
  | _ => false

/-- Look a top-level key up in a JSON object. -/
def getKey (v : JVal) (k : String) : Option JVal :=
  match v with
  | .jobj fs => (fs.find? (fun f => f.fst == k)).map (fun f => f.snd)
  | _ => none

/-- Is there a key `k2` under the object at key `k1`? -/
def hasKey2 (v : JVal) (k1 k2 : String) : Bool :=
  match getKey v k1 with
  | some v' => hasKey v' k2
  | none => false

/-- `zpid.toString().padStart(64, '0')` prefixed with `0x`. -/
def padZpid (zpid : Nat) : String :=
  let s := toString zpid
  "0x" ++ String.mk (List.replicate (64 - s.length) '0') ++ s

/-- Outcome of `fetchRandomListing` (it catches internally and returns
either the success object or `{success:false, error}`). -/
inductive FetchResult where
  | ok (body : JVal)
  | fail (errMsg : String)

/-- `fetchRandomListing`: throws (→ `fail`) when the upstream response is
not ok or `data.props` is missing/empty; otherwise builds the success
object from the picked listing.  The `adjustmentPercent` string of
`priceInfo` is float formatting and is omitted. -/
def fetchRandomListing (city : String) (respOk : Bool) (statusCode : Nat)
    (props : Option (List PropListing)) (pick : Nat) (displayedPrice : Nat) :
    FetchResult :=
  if respOk = false then
    .fail ("RapidAPI responded with status: " ++ toString statusCode)
  else
    match props with
    | none => .fail "No listings found in the response"
    | some [] => .fail "No listings found in the response"
    | some (p :: rest) =>
      let ps := p :: rest
      let L := ps.getD (pick % ps.length) p
      let actualPrice := L.price
      .ok (.jobj
        [("success", .jbool true),
         ("city", .jstr city),
         ("listing", .jobj
           [("zpid", .jnum L.zpid),
            ("address", .jstr L.address),
            ("price", .jnum actualPrice),
            ("imgSrc", .jstr L.imgSrc),
            ("bedrooms", .jnum L.bedrooms),
            ("bathrooms", .jnum L.bathrooms),
            ("livingArea", .jnum L.livingArea),
            ("homeType", .jstr L.homeType),
            ("latitude", .jnum L.latitude),
            ("longitude", .jnum L.longitude)]),
         ("contractData", .jobj
           [("listingId", .jstr (padZpid L.zpid)),
            ("displayedPrice", .jnum displayedPrice),
            ("actualPrice", .jnum actualPrice)]),
         ("priceInfo", .jobj
           [("actual", .jnum actualPrice),
            ("displayed", .jnum displayedPrice)])])

/-- An HTTP response of the proxy: status code and JSON body. -/
structure HttpResponse where
  status : Nat
  body : JVal

/-- The `GET /api/random-listing` route: `200` with the fetched object on
success, else `500` with `{error: 'Failed to fetch listing', details}`. -/
def randomListingHandler (city : String) (respOk : Bool) (statusCode : Nat)
    (props : Option (List PropListing)) (pick : Nat) (displayedPrice : Nat) :
    HttpResponse :=
  match fetchRandomListing city respOk statusCode props pick displayedPrice with
  | .ok body => { status := 200, body := body }
  | .fail msg =>
    { status := 500
      body := .jobj [("error", .jstr "Failed to fetch listing"), ("details", .jstr msg)] }

/-- An upstream listing used in tests. -/
def pFix : PropListing :=
  { zpid := 42, address := "1 Main St", price := 100000, imgSrc := "img"
    bedrooms := 3, bathrooms := 2, livingArea := 1500, homeType := "House"
    latitude := 30, longitude := -97 }

/-- The success body produced for `pFix` (displayed price 95000). -/
def apiOkBody : JVal :=
  match fetchRandomListing "Austin, TX" true 200 (some [pFix]) 0 95000 with
  | .ok b => b
  | .fail _ => .jbool false

end ZillopolyApi

namespace Zillopoly

/-- A HOBO ledger for tests: the contract (address 5) holds funds for
payouts, player 1 holds funds and has approved themselves as spender. -/
def tokFix : TokenState :=
  { balances := fun a =>
      if a = 5 then 100000 * 10 ^ 18 else if a = 1 then 50000 * 10 ^ 18 else 0
    allowance := fun o sp => if o = 1 ∧ sp = 1 then 50000 * 10 ^ 18 else 0 }

/-- A game of player 1 in stage `GuessSubmitted` with guess `higher` and
displayed price 100. -/
def gameFix : Listing :=
  { gameId := 1, displayedPrice := 100, actualPrice := 0, higherOrLower := true,
    listingId := 7, player := 1, timestamp := 0, stage := .guessSubmitted,
    won := false, payout := 0 }

/-- The same slot before initialization (stage `NotStarted`). -/
def gameFix0 : Listing :=
  { gameFix with displayedPrice := 0, listingId := 0, higherOrLower := false,
                 stage := .notStarted }

/-- A contract state holding `gameFix` as game 1; owner is address 9,
the contract lives at address 5. -/
def sFix : ZState :=
  { nextGameId := 2
    playerListings := fun p => if p = 1 then [gameFix] else []
    gameById := fun i => if i = 1 then gameFix else freshListing 0 0 0
    allGames := [gameFix]
    owner := 9
    token := tokFix
    contractAddr := 5 }

/-- `sFix` with game 1 still in stage `NotStarted`. -/
def sFix0 : ZState :=
  { sFix with
    playerListings := fun p => if p = 1 then [gameFix0] else []
    gameById := fun i => if i = 1 then gameFix0 else freshListing 0 0 0
    allGames := [gameFix0] }

/-- `sFix` after the owner settles game 1 at actual price 150 (a win for
the `higher` guess). -/
def sFixSettled : ZState := settleBetRun 9 1 150 sFix

/-- `sFix` after the owner settles game 1 at actual price 100 (a tie). -/
def sFixTie : ZState := settleBetRun 9 1 100 sFix

/-- `sFix` after player 1 buys a batch of ten games. -/
def sC1 : ZState := startGameRun 1 0 sFix

/-- A reachable state: deployment by address 9 followed by one batch
purchase by player 1. -/
def sReach : ZState := applyOp (Op.start 1 0) (initState 9 tokFix 5)

end Zillopoly

namespace Zillopoly

theorem wins_iff (b : Bool) (d a : Nat) :
    wins b d a = true ↔ (b = true ∧ d < a) ∨ (b = false ∧ a < d) ∨ a = d := by
  cases b <;> simp [wins]

theorem updateListingInArrays_gameById (s : ZState) (gid : Nat) (g : Listing) :
    (updateListingInArrays s gid g).gameById = s.gameById := rfl

/-- C3: on every successful settlement, `won` is true exactly when the
guess was `higher` and the actual price is above the displayed price, or
the guess was `lower` and it is below, or the two prices are equal; in
particular a tie always sets `won = true`, whatever the guess was. -/
theorem settleBet_win_rule (s : ZState) (caller gid actual : Nat) (s' : ZState)
    (h : settleBet caller gid actual s = .ok s') :
    ((s'.gameById gid).won = true ↔
      ((s.gameById gid).higherOrLower = true ∧ (s.gameById gid).displayedPrice < actual) ∨
      ((s.gameById gid).higherOrLower = false ∧ actual < (s.gameById gid).displayedPrice) ∨
      actual = (s.gameById gid).displayedPrice) ∧
    (actual = (s.gameById gid).displayedPrice → (s'.gameById gid).won = true) := by
  simp only [settleBet] at h
  split at h <;> try (cases h)
  split at h <;> try (cases h)
  split at h <;> try (cases h)
  split at h <;> try (cases h)
  split at h <;> try (cases h)
  all_goals try (split at h <;> cases h)
  all_goals
    refine ⟨?_, fun ht => ?_⟩
  all_goals simp only [updateListingInArrays]
  all_goals simp
  · exact wins_iff _ _ _
  · exact (wins_iff _ _ _).mpr (Or.inr (Or.inr ht))
  · exact wins_iff _ _ _
  · exact (wins_iff _ _ _).mpr (Or.inr (Or.inr ht))

/-- Witness for C3: settling `sFix` (guess `higher`, displayed 100) at
actual price 150 records a win. -/
theorem settleBet_win_rule_witness :
    (((sFixSettled.gameById 1).won = true ↔
      ((sFix.gameById 1).higherOrLower = true ∧ (sFix.gameById 1).displayedPrice < 150) ∨
      ((sFix.gameById 1).higherOrLower = false ∧ 150 < (sFix.gameById 1).displayedPrice) ∨
      150 = (sFix.gameById 1).displayedPrice) ∧
    (150 = (sFix.gameById 1).displayedPrice → (sFixSettled.gameById 1).won = true)) :=
  settleBet_win_rule sFix 9 1 150 sFixSettled rfl

end Zillopoly

namespace Zillopoly

theorem settleBet_ok_elim {s : ZState} {caller gid actual : Nat} {s' : ZState}
    (h : settleBet caller gid actual s = .ok s') :
    caller = s.owner ∧ 0 < gid ∧ gid < s.nextGameId ∧ 0 < actual ∧
    (s.gameById gid).stage = .guessSubmitted ∧
    s'.gameById = (fun i => if i = gid then settledListing (s.gameById gid) actual
                            else s.gameById i) ∧
    s'.nextGameId = s.nextGameId ∧ s'.owner = s.owner ∧
    s'.contractAddr = s.contractAddr ∧
    s'.allGames = replaceFirstById gid (settledListing (s.gameById gid) actual) s.allGames ∧
    (∀ p, s'.playerListings p =
      if p = (s.gameById gid).player then
        replaceFirstById gid (settledListing (s.gameById gid) actual) (s.playerListings p)
      else s.playerListings p) ∧
    (if wins (s.gameById gid).higherOrLower (s.gameById gid).displayedPrice actual then
       s.token.transfer s.contractAddr (s.gameById gid).player (GAME_COST * 2) = some s'.token
     else s'.token = s.token) := by
  simp only [settleBet] at h
  split at h <;> try (cases h)
  rename_i hc
  split at h <;> try (cases h)
  rename_i hrange
  split at h <;> try (cases h)
  rename_i hpos
  split at h <;> try (cases h)
  rename_i hstage
  split at h <;> try (cases h)
  case _ hw =>
    split at h <;> try (cases h)
    rename_i tok htok
    refine ⟨hc, hrange.1, hrange.2, hpos, hstage, ?_, rfl, rfl, rfl, ?_, ?_, ?_⟩
    · funext i
      by_cases hi : i = gid <;> simp [updateListingInArrays, hi, settledListing, hw]
    · simp [updateListingInArrays, settledListing, hw]
    · intro p
      by_cases hp : p = (s.gameById gid).player <;>
        simp [updateListingInArrays, hp, settledListing, hw]
    · simp only [hw, if_pos]
      simpa [updateListingInArrays] using htok
  case _ hw =>
    refine ⟨hc, hrange.1, hrange.2, hpos, hstage, ?_, rfl, rfl, rfl, ?_, ?_, ?_⟩
    · funext i
      by_cases hi : i = gid <;> simp [updateListingInArrays, hi, settledListing, hw]
    · simp [updateListingInArrays, settledListing, hw]
    · intro p
      by_cases hp : p = (s.gameById gid).player <;>
        simp [updateListingInArrays, hp, settledListing, hw]
    · simp [updateListingInArrays, hw]

end Zillopoly

namespace Zillopoly

theorem initializeGame_ok_elim {s : ZState} {c gid lid price : Nat} {s' : ZState}
    (h : initializeGame c gid lid price s = .ok s') :
    c = s.owner ∧ 0 < gid ∧ gid < s.nextGameId ∧ lid ≠ 0 ∧ 0 < price ∧
    (s.gameById gid).stage = .notStarted ∧
    s'.gameById = (fun i => if i = gid then initializedListing (s.gameById gid) lid price
                            else s.gameById i) ∧
    s'.nextGameId = s.nextGameId ∧ s'.owner = s.owner ∧
    s'.contractAddr = s.contractAddr ∧ s'.token = s.token ∧
    s'.allGames = replaceFirstById gid (initializedListing (s.gameById gid) lid price) s.allGames ∧
    (∀ p, s'.playerListings p =
      if p = (s.gameById gid).player then
        replaceFirstById gid (initializedListing (s.gameById gid) lid price) (s.playerListings p)
      else s.playerListings p) := by
  simp only [initializeGame] at h
  split at h <;> try (cases h)
  rename_i hc
  split at h <;> try (cases h)
  rename_i hrange
  split at h <;> try (cases h)
  rename_i hl
  split at h <;> try (cases h)
  rename_i hp
  split at h <;> try (cases h)
  rename_i hstage
  refine ⟨hc, hrange.1, hrange.2, hl, hp, hstage, ?_, rfl, rfl, rfl, rfl, ?_, ?_⟩
  · funext i
    by_cases hi : i = gid <;> simp [updateListingInArrays, hi, initializedListing]
  · simp [updateListingInArrays, initializedListing]
  · intro p
    by_cases hp' : p = (s.gameById gid).player <;>
      simp [updateListingInArrays, hp', initializedListing]

theorem makeGuess_ok_elim {s : ZState} {c gid : Nat} {hi : Bool} {s' : ZState}
    (h : makeGuess c gid hi s = .ok s') :
    0 < gid ∧ gid < s.nextGameId ∧ (s.gameById gid).player = c ∧
    (s.gameById gid).stage = .initialized ∧
    s'.gameById = (fun i => if i = gid then guessedListing (s.gameById gid) hi
                            else s.gameById i) ∧
    s'.nextGameId = s.nextGameId ∧ s'.owner = s.owner ∧
    s'.contractAddr = s.contractAddr ∧ s'.token = s.token ∧
    s'.allGames = replaceFirstById gid (guessedListing (s.gameById gid) hi) s.allGames ∧
    (∀ p, s'.playerListings p =
      if p = (s.gameById gid).player then
        replaceFirstById gid (guessedListing (s.gameById gid) hi) (s.playerListings p)
      else s.playerListings p) := by
  simp only [makeGuess] at h
  split at h <;> try (cases h)
  rename_i hrange
  split at h <;> try (cases h)
  rename_i hpl
  split at h <;> try (cases h)
  rename_i hstage
  refine ⟨hrange.1, hrange.2, hpl, hstage, ?_, rfl, rfl, rfl, rfl, ?_, ?_⟩
  · funext i
    by_cases hig : i = gid <;> simp [updateListingInArrays, hig, guessedListing]
  · simp [updateListingInArrays, guessedListing]
  · intro p
    by_cases hp' : p = (s.gameById gid).player <;>
      simp [updateListingInArrays, hp', guessedListing]

theorem startGame_ok_elim {s : ZState} {c t : Nat} {r : ZState × Nat × Nat}
    (h : startGame c t s = .ok r) :
    ∃ tok, s.token.transferFrom c c s.contractAddr BATCH_COST = some tok ∧
      r = (createSlots c t BATCH_SIZE { s with token := tok }, s.nextGameId,
           (createSlots c t BATCH_SIZE { s with token := tok }).nextGameId - 1) := by
  simp only [startGame] at h
  split at h <;> try (cases h)
  rename_i tok htok
  exact ⟨tok, htok, rfl⟩

theorem withdrawFunds_ok_elim {s : ZState} {c a : Nat} {s' : ZState}
    (h : withdrawFunds c a s = .ok s') :
    s'.gameById = s.gameById ∧ s'.allGames = s.allGames ∧
    s'.playerListings = s.playerListings ∧ s'.nextGameId = s.nextGameId ∧
    s'.owner = s.owner ∧ s'.contractAddr = s.contractAddr := by
  simp only [withdrawFunds] at h
  split at h <;> try (cases h)
  split at h <;> try (cases h)
  split at h <;> cases h
  exact ⟨rfl, rfl, rfl, rfl, rfl, rfl⟩

theorem startGameRun_of_error {s : ZState} {c t : Nat} {e : ZError}
    (h : startGame c t s = .error e) : startGameRun c t s = s := by
  simp [startGameRun, h]

theorem startGameRun_of_ok {s s' : ZState} {c t a b : Nat}
    (h : startGame c t s = .ok (s', a, b)) : startGameRun c t s = s' := by
  simp [startGameRun, h]

theorem initializeGameRun_of_error {s : ZState} {c gid l p : Nat} {e : ZError}
    (h : initializeGame c gid l p s = .error e) :
    initializeGameRun c gid l p s = s := by
  simp [initializeGameRun, h]

theorem initializeGameRun_of_ok {s s' : ZState} {c gid l p : Nat}
    (h : initializeGame c gid l p s = .ok s') :
    initializeGameRun c gid l p s = s' := by
  simp [initializeGameRun, h]

theorem makeGuessRun_of_error {s : ZState} {c gid : Nat} {hi : Bool} {e : ZError}
    (h : makeGuess c gid hi s = .error e) : makeGuessRun c gid hi s = s := by
  simp [makeGuessRun, h]

theorem makeGuessRun_of_ok {s s' : ZState} {c gid : Nat} {hi : Bool}
    (h : makeGuess c gid hi s = .ok s') : makeGuessRun c gid hi s = s' := by
  simp [makeGuessRun, h]

theorem settleBetRun_of_error {s : ZState} {c gid a : Nat} {e : ZError}
    (h : settleBet c gid a s = .error e) : settleBetRun c gid a s = s := by
  simp [settleBetRun, h]

theorem settleBetRun_of_ok {s s' : ZState} {c gid a : Nat}
    (h : settleBet c gid a s = .ok s') : settleBetRun c gid a s = s' := by
  simp [settleBetRun, h]

theorem withdrawFundsRun_of_error {s : ZState} {c a : Nat} {e : ZError}
    (h : withdrawFunds c a s = .error e) : withdrawFundsRun c a s = s := by
  simp [withdrawFundsRun, h]

theorem withdrawFundsRun_of_ok {s s' : ZState} {c a : Nat}
    (h : withdrawFunds c a s = .ok s') : withdrawFundsRun c a s = s' := by
  simp [withdrawFundsRun, h]

end Zillopoly

namespace Zillopoly

theorem batchListings_succ (c t start k : Nat) :
    batchListings c t start (k + 1) =
      freshListing start c t :: batchListings c t (start + 1) k := by
  simp [batchListings, List.range'_succ]

theorem createSlots_nextGameId (c t : Nat) (k : Nat) :
    ∀ (s : ZState), (createSlots c t k s).nextGameId = s.nextGameId + k := by
  induction k with
  | zero => intro s; simp [createSlots]
  | succ k ih =>
    intro s
    simp only [createSlots, ih]
    omega

theorem createSlots_token (c t : Nat) (k : Nat) :
    ∀ (s : ZState), (createSlots c t k s).token = s.token := by
  induction k with
  | zero => intro s; simp [createSlots]
  | succ k ih => intro s; simp only [createSlots, ih]

theorem createSlots_owner (c t : Nat) (k : Nat) :
    ∀ (s : ZState), (createSlots c t k s).owner = s.owner := by
  induction k with
  | zero => intro s; simp [createSlots]
  | succ k ih => intro s; simp only [createSlots, ih]

theorem createSlots_contractAddr (c t : Nat) (k : Nat) :
    ∀ (s : ZState), (createSlots c t k s).contractAddr = s.contractAddr := by
  induction k with
  | zero => intro s; simp [createSlots]
  | succ k ih => intro s; simp only [createSlots, ih]

theorem createSlots_allGames (c t : Nat) (k : Nat) :
    ∀ (s : ZState),
      (createSlots c t k s).allGames = s.allGames ++ batchListings c t s.nextGameId k := by
  induction k with
  | zero => intro s; simp [createSlots, batchListings]
  | succ k ih =>
    intro s
    simp only [createSlots, ih]
    simp [batchListings_succ, List.append_assoc]

theorem createSlots_playerListings (c t : Nat) (k : Nat) :
    ∀ (s : ZState) (p : Nat),
      (createSlots c t k s).playerListings p =
        s.playerListings p ++ (if p = c then batchListings c t s.nextGameId k else []) := by
  induction k with
  | zero => intro s p; simp [createSlots, batchListings]
  | succ k ih =>
    intro s p
    simp only [createSlots, ih]
    by_cases hp : p = c <;> simp [hp, batchListings_succ]

theorem createSlots_gameById (c t : Nat) (k : Nat) :
    ∀ (s : ZState) (i : Nat),
      (createSlots c t k s).gameById i =
        if s.nextGameId ≤ i ∧ i < s.nextGameId + k then freshListing i c t
        else s.gameById i := by
  induction k with
  | zero =>
    intro s i
    rw [if_neg (by omega)]
    simp [createSlots]
  | succ k ih =>
    intro s i
    simp only [createSlots, ih]
    by_cases h1 : s.nextGameId + 1 ≤ i ∧ i < s.nextGameId + 1 + k
    · rw [if_pos h1, if_pos (by omega)]
    · rw [if_neg h1]
      by_cases h2 : i = s.nextGameId
      · subst h2
        simp only [if_pos rfl]
        have hcond : s.nextGameId ≤ s.nextGameId ∧ s.nextGameId < s.nextGameId + (k + 1) :=
          ⟨Nat.le_refl _, by omega⟩
        rw [if_pos hcond]
        simp
      · simp only [if_neg h2]
        have hcond : ¬(s.nextGameId ≤ i ∧ i < s.nextGameId + (k + 1)) := by omega
        rw [if_neg hcond]

end Zillopoly

namespace Zillopoly

theorem replaceFirstById_length (gid : Nat) (g : Listing) (l : List Listing) :
    (replaceFirstById gid g l).length = l.length := by
  induction l with
  | nil => rfl
  | cons x xs ih =>
    by_cases hx : x.gameId = gid <;> simp [replaceFirstById, hx, ih]

theorem replaceFirstById_eq_map (gid : Nat) (g : Listing) (l : List Listing)
    (hnd : (l.map (fun x => x.gameId)).Nodup) :
    replaceFirstById gid g l = l.map (fun x => if x.gameId = gid then g else x) := by
  induction l with
  | nil => rfl
  | cons x xs ih =>
    simp only [List.map_cons, List.nodup_cons] at hnd
    by_cases hx : x.gameId = gid
    · simp only [replaceFirstById, if_pos hx, List.map_cons]
      have hxs : ∀ y ∈ xs, ¬(y.gameId = gid) := by
        intro y hy hgy
        exact hnd.1 (by
          rw [hx, ← hgy]
          exact List.mem_map_of_mem _ hy)
      have : xs.map (fun x => if x.gameId = gid then g else x) = xs := by
        rw [List.map_congr_left (g := id) (fun y hy => by simp [hxs y hy]), List.map_id]
      rw [this]
    · simp only [replaceFirstById, if_neg hx, List.map_cons, ih hnd.2]

theorem map_gameId_replaceFirstById (gid : Nat) (g : Listing) (l : List Listing)
    (hg : g.gameId = gid) :
    (replaceFirstById gid g l).map (fun x => x.gameId) = l.map (fun x => x.gameId) := by
  induction l with
  | nil => rfl
  | cons x xs ih =>
    by_cases hx : x.gameId = gid <;> simp [replaceFirstById, hx, ih, hg]

theorem filter_player_map (p : Nat) (f : Listing → Listing) (l : List Listing)
    (hf : ∀ x ∈ l, (f x).player = x.player) :
    (l.map f).filter (fun y => y.player = p) =
      (l.filter (fun y => y.player = p)).map f := by
  induction l with
  | nil => rfl
  | cons x xs ih =>
    have hx := hf x (List.mem_cons_self _ _)
    have ihx := ih (fun y hy => hf y (List.mem_cons_of_mem _ hy))
    by_cases hp : x.player = p
    · simp [List.filter_cons, hx, hp, ihx]
    · simp [List.filter_cons, hx, hp, ihx]

theorem filter_gameId_unique (l : List Listing) (x : Listing)
    (hnd : (l.map (fun y => y.gameId)).Nodup) (hx : x ∈ l) :
    l.filter (fun y => y.gameId = x.gameId) = [x] := by
  induction l with
  | nil => cases hx
  | cons z zs ih =>
    simp only [List.map_cons, List.nodup_cons] at hnd
    rcases List.mem_cons.mp hx with hz | hz
    · subst hz
      have : zs.filter (fun y => y.gameId = x.gameId) = [] := by
        rw [List.filter_eq_nil_iff]
        intro y hy
        simp only [decide_eq_true_eq]
        intro hgy
        exact hnd.1 (by rw [← hgy]; exact List.mem_map_of_mem _ hy)
      simp [List.filter_cons, this]
    · have hzx : ¬(z.gameId = x.gameId) := by
        intro he
        exact hnd.1 (by rw [he]; exact List.mem_map_of_mem _ hz)
      simp [List.filter_cons, hzx, ih hnd.2 hz]

end Zillopoly

namespace Zillopoly

theorem Inv.gameById_mem {s : ZState} (hInv : Inv s) {gid : Nat}
    (h1 : 1 ≤ gid) (h2 : gid < s.nextGameId) :
    s.gameById gid ∈ s.allGames ∧ (s.gameById gid).gameId = gid := by
  obtain ⟨ha, hb, hc, hd, he⟩ := hInv
  have hmem : gid ∈ s.allGames.map (fun g => g.gameId) := by
    rw [hb]
    exact List.mem_range'_1.mpr ⟨h1, by omega⟩
  obtain ⟨x, hxmem, hxid⟩ := List.mem_map.mp hmem
  have hx : s.gameById gid = x := by
    have := hc x hxmem
    rw [hxid] at this
    exact this
  constructor
  · rw [hx]; exact hxmem
  · rw [hx, hxid]

theorem Inv.nodupIds {s : ZState} (hInv : Inv s) :
    (s.allGames.map (fun g => g.gameId)).Nodup := by
  rw [hInv.2.1]
  exact List.nodup_range' 1 _

theorem Inv.eq_gameById_of_mem {s : ZState} (hInv : Inv s) {y : Listing} {gid : Nat}
    (hy : y ∈ s.allGames) (hid : y.gameId = gid) : y = s.gameById gid := by
  have := hInv.2.2.1 y hy
  rw [hid] at this
  exact this.symm

theorem Inv_update {s : ZState} (hInv : Inv s) {s' : ZState} (gid : Nat) (g' : Listing)
    (h1 : 1 ≤ gid) (h2 : gid < s.nextGameId)
    (hg'id : g'.gameId = gid) (hg'pl : g'.player = (s.gameById gid).player)
    (hg'price : g'.stage ≠ .notStarted → 0 < g'.displayedPrice)
    (hn : s'.nextGameId = s.nextGameId)
    (hgb : s'.gameById = fun i => if i = gid then g' else s.gameById i)
    (hag : s'.allGames = replaceFirstById gid g' s.allGames)
    (hpl : ∀ p, s'.playerListings p =
       if p = (s.gameById gid).player then replaceFirstById gid g' (s.playerListings p)
       else s.playerListings p) :
    Inv s' := by
  have hnd := hInv.nodupIds
  obtain ⟨hmem, hgid⟩ := hInv.gameById_mem h1 h2
  obtain ⟨ha, hb, hc, hd, he⟩ := hInv
  have hmap : replaceFirstById gid g' s.allGames =
      s.allGames.map (fun x => if x.gameId = gid then g' else x) :=
    replaceFirstById_eq_map _ _ _ hnd
  have hfeq : ∀ x ∈ s.allGames, x.gameId = gid → x = s.gameById gid := by
    intro x hx hxg
    have := hc x hx
    rw [hxg] at this
    exact this.symm
  have hfpl : ∀ x ∈ s.allGames,
      ((fun x => if x.gameId = gid then g' else x) x).player = x.player := by
    intro x hx
    by_cases hxg : x.gameId = gid
    · have hxeq := hfeq x hx hxg
      simp [hxg, hg'pl, ← hxeq]
    · simp [hxg]
  refine ⟨by rw [hn]; exact ha, ?_, ?_, ?_, ?_⟩
  · rw [hag, hn, map_gameId_replaceFirstById _ _ _ hg'id, hb]
  · intro y hy
    rw [hag, hmap] at hy
    obtain ⟨x, hx, hfx⟩ := List.mem_map.mp hy
    rw [hgb]
    by_cases hxg : x.gameId = gid
    · simp only [if_pos hxg] at hfx
      subst hfx
      simp [hg'id]
    · simp only [if_neg hxg] at hfx
      subst hfx
      simp only [if_neg hxg]
      exact hc x hx
  · intro p
    rw [hpl p, hag, hmap, filter_player_map p _ _ hfpl]
    by_cases hp : p = (s.gameById gid).player
    · rw [if_pos hp, hd p]
      apply replaceFirstById_eq_map
      exact ((List.filter_sublist _).map _).nodup hnd
    · rw [if_neg hp, hd p]
      have hnomatch : ∀ y ∈ s.allGames.filter (fun y => y.player = p),
          (fun x => if x.gameId = gid then g' else x) y = y := by
        intro y hy
        have hymem := List.mem_of_mem_filter hy
        have hyp : y.player = p := by
          have := List.of_mem_filter hy
          simpa using this
        by_cases hyg : y.gameId = gid
        · exfalso
          apply hp
          rw [← hyp, hfeq y hymem hyg]
        · simp [hyg]
      rw [List.map_congr_left (g := id) (fun y hy => by simp [hnomatch y hy]),
          List.map_id]
  · intro y hy hstage
    rw [hag, hmap] at hy
    obtain ⟨x, hx, hfx⟩ := List.mem_map.mp hy
    by_cases hxg : x.gameId = gid
    · simp only [if_pos hxg] at hfx
      subst hfx
      exact hg'price hstage
    · simp only [if_neg hxg] at hfx
      subst hfx
      exact he x hx hstage

end Zillopoly

namespace Zillopoly

theorem batchListings_map_gameId (c t start k : Nat) :
    (batchListings c t start k).map (fun g => g.gameId) = List.range' start k := by
  rw [batchListings, List.map_map]
  have hcomp : ((fun g : Listing => g.gameId) ∘ fun i => freshListing i c t) = id :=
    funext fun i => rfl
  rw [hcomp, List.map_id]

theorem Inv_of_fields {s s' : ZState} (hInv : Inv s)
    (hn : s'.nextGameId = s.nextGameId) (hgb : s'.gameById = s.gameById)
    (hag : s'.allGames = s.allGames) (hpl : s'.playerListings = s.playerListings) :
    Inv s' := by
  obtain ⟨ha, hb, hc, hd, he⟩ := hInv
  refine ⟨by rw [hn]; exact ha, by rw [hag, hn]; exact hb, ?_, ?_, ?_⟩
  · intro y hy
    rw [hgb]
    exact hc y (hag ▸ hy)
  · intro p
    rw [hpl, hag]
    exact hd p
  · intro y hy
    rw [hag] at hy
    exact he y hy

theorem Inv_startGameRun {s : ZState} (hInv : Inv s) (c t : Nat) :
    Inv (startGameRun c t s) := by
  cases h : startGame c t s with
  | error e => rw [startGameRun_of_error h]; exact hInv
  | ok r =>
    obtain ⟨s', a, b⟩ := r
    rw [startGameRun_of_ok h]
    obtain ⟨tok, htok, hr⟩ := startGame_ok_elim h
    have hs' : s' = createSlots c t BATCH_SIZE { s with token := tok } :=
      congrArg Prod.fst hr
    rw [hs']
    obtain ⟨ha, hb, hc, hd, he⟩ := hInv
    have hn' : ({ s with token := tok } : ZState).nextGameId = s.nextGameId := rfl
    refine ⟨?_, ?_, ?_, ?_, ?_⟩
    · rw [createSlots_nextGameId]
      simp only [hn']
      omega
    · rw [createSlots_allGames, createSlots_nextGameId, List.map_append, hn']
      show s.allGames.map (fun g => g.gameId) ++
          (batchListings c t s.nextGameId BATCH_SIZE).map (fun g => g.gameId) = _
      rw [hb, batchListings_map_gameId]
      have h1n : 1 + (s.nextGameId - 1) = s.nextGameId := by omega
      have := List.range'_append_1 1 (s.nextGameId - 1) BATCH_SIZE
      rw [h1n] at this
      rw [this]
      congr 1
      omega
    · intro y hy
      rw [createSlots_allGames] at hy
      rw [createSlots_gameById]
      rcases List.mem_append.mp hy with hold | hnew
      · have hid : y.gameId ∈ s.allGames.map (fun g => g.gameId) :=
          List.mem_map_of_mem _ hold
        rw [hb] at hid
        have hbound := List.mem_range'_1.mp hid
        rw [if_neg (by simp only [hn']; omega)]
        exact hc y hold
      · obtain ⟨i, hi, hfi⟩ := List.mem_map.mp hnew
        have hibound := List.mem_range'_1.mp hi
        subst hfi
        rw [if_pos (by simp only [hn', freshListing]; exact hibound)]
        rfl
    · intro q
      rw [createSlots_playerListings, createSlots_allGames, List.filter_append, hd q]
      by_cases hq : q = c
      · subst hq
        rw [if_pos rfl]
        congr 1
        symm
        rw [List.filter_eq_self]
        intro y hy
        obtain ⟨i, hi, hfi⟩ := List.mem_map.mp hy
        subst hfi
        simp [freshListing]
      · rw [if_neg hq]
        have hnil : (batchListings c t
            ({ s with token := tok } : ZState).nextGameId BATCH_SIZE).filter
            (fun g => g.player = q) = [] := by
          rw [List.filter_eq_nil_iff]
          intro y hy
          obtain ⟨i, hi, hfi⟩ := List.mem_map.mp hy
          subst hfi
          simp [freshListing]
          intro hcq
          exact hq hcq.symm
        rw [hnil, List.append_nil]
    · intro y hy hst
      rw [createSlots_allGames] at hy
      rcases List.mem_append.mp hy with hold | hnew
      · exact he y hold hst
      · obtain ⟨i, hi, hfi⟩ := List.mem_map.mp hnew
        exfalso
        apply hst
        rw [← hfi]
        rfl

end Zillopoly

namespace Zillopoly

theorem Inv_initializeGameRun {s : ZState} (hInv : Inv s) (c gid l p : Nat) :
    Inv (initializeGameRun c gid l p s) := by
  cases h : initializeGame c gid l p s with
  | error e => rw [initializeGameRun_of_error h]; exact hInv
  | ok s' =>
    rw [initializeGameRun_of_ok h]
    obtain ⟨hc, h1, h2, hl, hp, hstage, hgb, hn, -, -, -, hag, hpl⟩ :=
      initializeGame_ok_elim h
    exact Inv_update hInv gid (initializedListing (s.gameById gid) l p) h1 h2
      (by simp [initializedListing, (hInv.gameById_mem h1 h2).2])
      (by simp [initializedListing])
      (fun _ => hp)
      hn hgb hag hpl

theorem Inv_makeGuessRun {s : ZState} (hInv : Inv s) (c gid : Nat) (hi : Bool) :
    Inv (makeGuessRun c gid hi s) := by
  cases h : makeGuess c gid hi s with
  | error e => rw [makeGuessRun_of_error h]; exact hInv
  | ok s' =>
    rw [makeGuessRun_of_ok h]
    obtain ⟨h1, h2, hpl', hstage, hgb, hn, -, -, -, hag, hpl⟩ := makeGuess_ok_elim h
    refine Inv_update hInv gid (guessedListing (s.gameById gid) hi) h1 h2
      (by simp [guessedListing, (hInv.gameById_mem h1 h2).2])
      (by simp [guessedListing])
      ?_ hn hgb hag hpl
    intro _
    have hmem := (hInv.gameById_mem h1 h2).1
    have := hInv.2.2.2.2 (s.gameById gid) hmem (by rw [hstage]; intro hcon; cases hcon)
    simpa [guessedListing] using this

theorem Inv_settleBetRun {s : ZState} (hInv : Inv s) (c gid a : Nat) :
    Inv (settleBetRun c gid a s) := by
  cases h : settleBet c gid a s with
  | error e => rw [settleBetRun_of_error h]; exact hInv
  | ok s' =>
    rw [settleBetRun_of_ok h]
    obtain ⟨hc, h1, h2, hpos, hstage, hgb, hn, -, -, hag, hpl, -⟩ := settleBet_ok_elim h
    refine Inv_update hInv gid (settledListing (s.gameById gid) a) h1 h2
      (by simp [settledListing, (hInv.gameById_mem h1 h2).2])
      (by simp [settledListing])
      ?_ hn hgb hag hpl
    intro _
    have hmem := (hInv.gameById_mem h1 h2).1
    have := hInv.2.2.2.2 (s.gameById gid) hmem (by rw [hstage]; intro hcon; cases hcon)
    simpa [settledListing] using this

theorem Inv_withdrawFundsRun {s : ZState} (hInv : Inv s) (c a : Nat) :
    Inv (withdrawFundsRun c a s) := by
  cases h : withdrawFunds c a s with
  | error e => rw [withdrawFundsRun_of_error h]; exact hInv
  | ok s' =>
    rw [withdrawFundsRun_of_ok h]
    obtain ⟨hgb, hag, hpl, hn, -, -⟩ := withdrawFunds_ok_elim h
    exact Inv_of_fields hInv hn hgb hag hpl

theorem Inv_applyOp {s : ZState} (hInv : Inv s) (op : Op) : Inv (applyOp op s) := by
  cases op with
  | start c t => exact Inv_startGameRun hInv c t
  | init c gid l p => exact Inv_initializeGameRun hInv c gid l p
  | guess c gid hi => exact Inv_makeGuessRun hInv c gid hi
  | settle c gid a => exact Inv_settleBetRun hInv c gid a
  | withdraw c a => exact Inv_withdrawFundsRun hInv c a

theorem Inv_initState (d : Nat) (tok : TokenState) (addr : Nat) :
    Inv (initState d tok addr) := by
  refine ⟨Nat.le_refl 1, ?_, ?_, ?_, ?_⟩ <;> simp [initState]

theorem reachable_inv {s : ZState} (h : Reachable s) : Inv s := by
  induction h with
  | deploy d tok addr => exact Inv_initState d tok addr
  | step s op _ ih => exact Inv_applyOp ih op

end Zillopoly

namespace Zillopoly

/-- C4: on every successful settlement, the payout is positive exactly when
the player won; a winning game pays exactly twice the per-game cost, and a
losing game pays zero and moves no tokens at all. -/
theorem settleBet_payout_rule (s : ZState) (caller gid actual : Nat) (s' : ZState)
    (h : settleBet caller gid actual s = .ok s') :
    (0 < (s'.gameById gid).payout ↔ (s'.gameById gid).won = true) ∧
    ((s'.gameById gid).won = true → (s'.gameById gid).payout = 2 * GAME_COST) ∧
    ((s'.gameById gid).won = false → (s'.gameById gid).payout = 0 ∧ s'.token = s.token) := by
  obtain ⟨-, -, -, -, -, hgb, -, -, -, -, -, htok⟩ := settleBet_ok_elim h
  rw [hgb]
  simp only [if_pos rfl]
  cases hw : wins (s.gameById gid).higherOrLower (s.gameById gid).displayedPrice actual with
  | true =>
    refine ⟨?_, ?_, ?_⟩
    · simp [settledListing, hw, GAME_COST]
    · intro _
      simp [settledListing, hw]
      ring
    · intro hcon
      simp [settledListing, hw] at hcon
  | false =>
    rw [hw] at htok
    have htok' : s'.token = s.token := by simpa using htok
    refine ⟨?_, ?_, ?_⟩
    · simp [settledListing, hw]
    · intro hcon
      simp [settledListing, hw] at hcon
    · intro _
      exact ⟨by simp [settledListing, hw], htok'⟩

/-- Witness for C4: the tie settlement of `sFix` at actual price 100 pays
`2 × GAME_COST` and records a win. -/
theorem settleBet_payout_rule_witness :
    ((0 < (sFixTie.gameById 1).payout ↔ (sFixTie.gameById 1).won = true) ∧
    ((sFixTie.gameById 1).won = true → (sFixTie.gameById 1).payout = 2 * GAME_COST) ∧
    ((sFixTie.gameById 1).won = false →
      (sFixTie.gameById 1).payout = 0 ∧ sFixTie.token = sFix.token)) :=
  settleBet_payout_rule sFix 9 1 100 sFixTie rfl

/-- C6: a `makeGuess` call on an existing game by anyone other than the
game's owner fails with the authorization error and leaves the state
(and hence the game's `guess` and `stage` fields) unchanged. -/
theorem makeGuess_unauthorized (s : ZState) (caller gid : Nat) (hi : Bool)
    (h1 : 0 < gid) (h2 : gid < s.nextGameId)
    (h3 : (s.gameById gid).player ≠ caller) :
    makeGuess caller gid hi s = .error .notYourGame ∧
    makeGuessRun caller gid hi s = s := by
  have hm : makeGuess caller gid hi s = .error .notYourGame := by
    simp only [makeGuess, if_pos (And.intro h1 h2), if_neg h3]
  exact ⟨hm, makeGuessRun_of_error hm⟩

/-- Witness for C6: caller 2 cannot guess on player 1's game in `sFix`. -/
theorem makeGuess_unauthorized_witness :
    makeGuess 2 1 true sFix = .error .notYourGame ∧
    makeGuessRun 2 1 true sFix = sFix :=
  makeGuess_unauthorized sFix 2 1 true (by decide) (by decide) (by decide)

/-- C5: settlement is atomic.  Every failing `settleBet` (bad id, wrong
stage, zero price, wrong caller, or failing payout transfer) reverts and
leaves the state unchanged; every successful one sets `actualPrice`,
advances the stage to `Settled`, and on a win credits the owner with the
recorded payout in the same step (a loss moves no tokens). -/
theorem settleBet_atomic (s : ZState) (caller gid actual : Nat) :
    (∀ e, settleBet caller gid actual s = .error e →
       settleBetRun caller gid actual s = s) ∧
    (∀ s', settleBet caller gid actual s = .ok s' →
       (s'.gameById gid).stage = .settled ∧
       (s'.gameById gid).actualPrice = actual ∧
       ((s'.gameById gid).won = true → (s.gameById gid).player ≠ s.contractAddr →
         s'.token.balances (s.gameById gid).player
           = s.token.balances (s.gameById gid).player + (s'.gameById gid).payout) ∧
       ((s'.gameById gid).won = false → s'.token = s.token)) := by
  constructor
  · intro e he
    exact settleBetRun_of_error he
  · intro s' h
    obtain ⟨-, -, -, -, -, hgb, -, -, -, -, -, htok⟩ := settleBet_ok_elim h
    rw [hgb]
    simp only [if_pos rfl]
    cases hw : wins (s.gameById gid).higherOrLower (s.gameById gid).displayedPrice actual with
    | true =>
      rw [hw] at htok
      have htr : s.token.transfer s.contractAddr (s.gameById gid).player (GAME_COST * 2)
          = some s'.token := by simpa using htok
      refine ⟨by simp [settledListing], by simp [settledListing], ?_, ?_⟩
      · intro _ hne
        simp only [TokenState.transfer] at htr
        split at htr
        · have hbal := Option.some_inj.mp htr
          have hbal' : s'.token.balances (s.gameById gid).player =
              s.token.balances (s.gameById gid).player + GAME_COST * 2 := by
            rw [← hbal]
            simp [updFun, hne]
          rw [hbal']
          simp [settledListing, hw]
        · cases htr
      · intro hcon
        simp [settledListing, hw] at hcon
    | false =>
      rw [hw] at htok
      have htok' : s'.token = s.token := by simpa using htok
      refine ⟨by simp [settledListing], by simp [settledListing], ?_, fun _ => htok'⟩
      intro hcon
      simp [settledListing, hw] at hcon

end Zillopoly

namespace Zillopoly

/-- Witness for C5: a non-owner settlement attempt on `sFix` reverts and
changes nothing; the owner's settlement at 150 settles game 1 with the
payout credited. -/
theorem settleBet_atomic_witness :
    settleBetRun 2 1 150 sFix = sFix ∧
    ((sFixSettled.gameById 1).stage = .settled ∧
     (sFixSettled.gameById 1).actualPrice = 150 ∧
     ((sFixSettled.gameById 1).won = true → (sFix.gameById 1).player ≠ sFix.contractAddr →
       sFixSettled.token.balances (sFix.gameById 1).player
         = sFix.token.balances (sFix.gameById 1).player + (sFixSettled.gameById 1).payout) ∧
     ((sFixSettled.gameById 1).won = false → sFixSettled.token = sFix.token)) :=
  ⟨(settleBet_atomic sFix 2 1 150).1 .notOwner rfl,
   (settleBet_atomic sFix 9 1 150).2 sFixSettled rfl⟩

theorem startGame_error_elim {s : ZState} {c t : Nat} {e : ZError}
    (h : startGame c t s = .error e) :
    e = .transferFailed ∧ s.token.transferFrom c c s.contractAddr BATCH_COST = none := by
  simp only [startGame] at h
  split at h
  · rename_i heq
    cases h
    exact ⟨rfl, heq⟩
  · cases h

/-- C1: `startGame` either debits the caller the full `BATCH_COST` and
creates exactly `BATCH_SIZE = 10` new empty games with contiguous,
strictly ascending, never-before-used ids starting at `nextGameId`, each
`NotStarted`, owned by the caller and with zero price fields, returning
the inclusive id range — or the debit fails and nothing changes. -/
theorem startGame_batch (s : ZState) (caller now : Nat) :
    (∀ s' first last, startGame caller now s = .ok (s', first, last) →
       first = s.nextGameId ∧
       last = s.nextGameId + BATCH_SIZE - 1 ∧
       s'.nextGameId = s.nextGameId + BATCH_SIZE ∧
       s'.allGames = s.allGames ++ batchListings caller now s.nextGameId BATCH_SIZE ∧
       (batchListings caller now s.nextGameId BATCH_SIZE).map (fun g => g.gameId)
         = List.range' s.nextGameId BATCH_SIZE ∧
       (∀ g ∈ batchListings caller now s.nextGameId BATCH_SIZE,
          g.stage = .notStarted ∧ g.player = caller ∧ g.displayedPrice = 0 ∧
          g.actualPrice = 0 ∧ g.payout = 0 ∧
          s.nextGameId ≤ g.gameId ∧ g.gameId < s.nextGameId + BATCH_SIZE) ∧
       ((∀ g0 ∈ s.allGames, g0.gameId < s.nextGameId) →
          ∀ g ∈ batchListings caller now s.nextGameId BATCH_SIZE,
            ∀ g0 ∈ s.allGames, g0.gameId ≠ g.gameId) ∧
       (∀ i, s.nextGameId ≤ i → i < s.nextGameId + BATCH_SIZE →
          s'.gameById i = freshListing i caller now) ∧
       (caller ≠ s.contractAddr →
          s'.token.balances caller + BATCH_COST = s.token.balances caller)) ∧
    (∀ e, startGame caller now s = .error e →
       e = .transferFailed ∧ startGameRun caller now s = s) := by
  constructor
  · intro s' first last h
    obtain ⟨tok, htok, hr⟩ := startGame_ok_elim h
    simp only [Prod.mk.injEq] at hr
    obtain ⟨hs', hfirst, hlast⟩ := hr
    have hmn : ({ s with token := tok } : ZState).nextGameId = s.nextGameId := rfl
    refine ⟨hfirst, ?_, ?_, ?_, batchListings_map_gameId _ _ _ _, ?_, ?_, ?_, ?_⟩
    · rw [hlast, createSlots_nextGameId, hmn]
    · rw [hs', createSlots_nextGameId, hmn]
    · rw [hs', createSlots_allGames, hmn]
    · intro g hg
      obtain ⟨i, hi, hfi⟩ := List.mem_map.mp hg
      have hib := List.mem_range'_1.mp hi
      subst hfi
      refine ⟨rfl, rfl, rfl, rfl, rfl, hib.1, hib.2⟩
    · intro hfreshness g hg g0 hg0
      obtain ⟨i, hi, hfi⟩ := List.mem_map.mp hg
      have hib := List.mem_range'_1.mp hi
      subst hfi
      have := hfreshness g0 hg0
      show g0.gameId ≠ i
      omega
    · intro i hi1 hi2
      rw [hs', createSlots_gameById, if_pos (by rw [hmn]; exact ⟨hi1, hi2⟩)]
    · intro hne
      rw [hs', createSlots_token]
      show tok.balances caller + BATCH_COST = s.token.balances caller
      simp only [TokenState.transferFrom] at htok
      split at htok
      · rename_i hcond
        have heq := Option.some_inj.mp htok
        have hbal : tok.balances caller = s.token.balances caller - BATCH_COST := by
          rw [← heq]
          simp [updFun, hne]
        rw [hbal]
        omega
      · cases htok
  · intro e he
    exact ⟨(startGame_error_elim he).1, startGameRun_of_error he⟩

/-- Witness for C1: player 1 buys a batch on `sFix` (`nextGameId = 2`)
and receives ids 2 … 11. -/
theorem startGame_batch_witness :
    sC1.nextGameId = 2 + BATCH_SIZE ∧
    sC1.allGames = sFix.allGames ++ batchListings 1 0 2 BATCH_SIZE ∧
    (1 ≠ sFix.contractAddr →
      sC1.token.balances 1 + BATCH_COST = sFix.token.balances 1) := by
  obtain ⟨-, -, h3, h4, -, -, -, -, h9⟩ :=
    (startGame_batch sFix 1 0).1 sC1 2 11 rfl
  exact ⟨h3, h4, h9⟩

end Zillopoly

namespace Zillopoly

theorem applyOp_gameById_cases (op : Op) (s : ZState) (gid : Nat)
    (hid : gid < s.nextGameId) :
    (applyOp op s).gameById gid = s.gameById gid ∨
    ((s.gameById gid).stage = .notStarted ∧
      ∃ l p, (applyOp op s).gameById gid = initializedListing (s.gameById gid) l p) ∨
    ((s.gameById gid).stage = .initialized ∧
      ∃ hi, (applyOp op s).gameById gid = guessedListing (s.gameById gid) hi) ∨
    ((s.gameById gid).stage = .guessSubmitted ∧
      ∃ a, (applyOp op s).gameById gid = settledListing (s.gameById gid) a) := by
  cases op with
  | start c t =>
    cases h : startGame c t s with
    | error e => left; rw [applyOp, startGameRun_of_error h]
    | ok r =>
      obtain ⟨s', a, b⟩ := r
      obtain ⟨tok, htok, hr⟩ := startGame_ok_elim h
      have hs' : s' = createSlots c t BATCH_SIZE { s with token := tok } :=
        congrArg Prod.fst hr
      left
      have hneg : ¬(({ s with token := tok } : ZState).nextGameId ≤ gid ∧
          gid < ({ s with token := tok } : ZState).nextGameId + BATCH_SIZE) := by
        show ¬(s.nextGameId ≤ gid ∧ gid < s.nextGameId + BATCH_SIZE)
        omega
      rw [applyOp, startGameRun_of_ok h, hs', createSlots_gameById, if_neg hneg]
  | init c gid0 l p =>
    cases h : initializeGame c gid0 l p s with
    | error e => left; rw [applyOp, initializeGameRun_of_error h]
    | ok s' =>
      obtain ⟨-, -, -, -, -, hstage, hgb, -⟩ := initializeGame_ok_elim h
      by_cases hg : gid = gid0
      · subst hg
        right; left
        exact ⟨hstage, l, p, by rw [applyOp, initializeGameRun_of_ok h, hgb]; simp⟩
      · left
        rw [applyOp, initializeGameRun_of_ok h, hgb]
        simp [hg]
  | guess c gid0 hi =>
    cases h : makeGuess c gid0 hi s with
    | error e => left; rw [applyOp, makeGuessRun_of_error h]
    | ok s' =>
      obtain ⟨-, -, -, hstage, hgb, -⟩ := makeGuess_ok_elim h
      by_cases hg : gid = gid0
      · subst hg
        right; right; left
        exact ⟨hstage, hi, by rw [applyOp, makeGuessRun_of_ok h, hgb]; simp⟩
      · left
        rw [applyOp, makeGuessRun_of_ok h, hgb]
        simp [hg]
  | settle c gid0 a =>
    cases h : settleBet c gid0 a s with
    | error e => left; rw [applyOp, settleBetRun_of_error h]
    | ok s' =>
      obtain ⟨-, -, -, -, hstage, hgb, -⟩ := settleBet_ok_elim h
      by_cases hg : gid = gid0
      · subst hg
        right; right; right
        exact ⟨hstage, a, by rw [applyOp, settleBetRun_of_ok h, hgb]; simp⟩
      · left
        rw [applyOp, settleBetRun_of_ok h, hgb]
        simp [hg]
  | withdraw c a =>
    cases h : withdrawFunds c a s with
    | error e => left; rw [applyOp, withdrawFundsRun_of_error h]
    | ok s' =>
      left
      rw [applyOp, withdrawFundsRun_of_ok h, (withdrawFunds_ok_elim h).1]

theorem applyOp_nextGameId_le (op : Op) (s : ZState) :
    s.nextGameId ≤ (applyOp op s).nextGameId := by
  cases op with
  | start c t =>
    cases h : startGame c t s with
    | error e => rw [applyOp, startGameRun_of_error h]
    | ok r =>
      obtain ⟨s', a, b⟩ := r
      obtain ⟨tok, htok, hr⟩ := startGame_ok_elim h
      have hs' : s' = createSlots c t BATCH_SIZE { s with token := tok } :=
        congrArg Prod.fst hr
      rw [applyOp, startGameRun_of_ok h, hs', createSlots_nextGameId]
      show s.nextGameId ≤ s.nextGameId + BATCH_SIZE
      omega
  | init c gid0 l p =>
    cases h : initializeGame c gid0 l p s with
    | error e => rw [applyOp, initializeGameRun_of_error h]
    | ok s' =>
      rw [applyOp, initializeGameRun_of_ok h, (initializeGame_ok_elim h).2.2.2.2.2.2.2.1]
  | guess c gid0 hi =>
    cases h : makeGuess c gid0 hi s with
    | error e => rw [applyOp, makeGuessRun_of_error h]
    | ok s' =>
      rw [applyOp, makeGuessRun_of_ok h, (makeGuess_ok_elim h).2.2.2.2.2.1]
  | settle c gid0 a =>
    cases h : settleBet c gid0 a s with
    | error e => rw [applyOp, settleBetRun_of_error h]
    | ok s' =>
      rw [applyOp, settleBetRun_of_ok h, (settleBet_ok_elim h).2.2.2.2.2.2.1]
  | withdraw c a =>
    cases h : withdrawFunds c a s with
    | error e => rw [applyOp, withdrawFundsRun_of_error h]
    | ok s' =>
      rw [applyOp, withdrawFundsRun_of_ok h, (withdrawFunds_ok_elim h).2.2.2.1]

end Zillopoly

namespace Zillopoly

/-- C7: `initializeGame` succeeds exactly when called by the owner
(the privileged operator) on an existing `NotStarted` game with a
non-zero listing id and a positive displayed price; on success it sets
`listingId` and `displayedPrice` and advances the stage; on any failure
the state is unchanged; once a game has left `NotStarted` no operation
changes its `displayedPrice` again, and in every reachable state such a
game has a positive `displayedPrice`. -/
theorem initializeGame_spec (s : ZState) (caller gid lid price : Nat) :
    ((∃ s', initializeGame caller gid lid price s = .ok s') ↔
      (caller = s.owner ∧ 0 < gid ∧ gid < s.nextGameId ∧ lid ≠ 0 ∧ 0 < price ∧
       (s.gameById gid).stage = .notStarted)) ∧
    (∀ s', initializeGame caller gid lid price s = .ok s' →
       (s'.gameById gid).listingId = lid ∧
       (s'.gameById gid).displayedPrice = price ∧
       (s'.gameById gid).stage = .initialized ∧
       0 < (s'.gameById gid).displayedPrice) ∧
    (∀ e, initializeGame caller gid lid price s = .error e →
       initializeGameRun caller gid lid price s = s) ∧
    (∀ op, gid < s.nextGameId → (s.gameById gid).stage ≠ .notStarted →
       ((applyOp op s).gameById gid).displayedPrice = (s.gameById gid).displayedPrice) ∧
    (Reachable s → ∀ gid0, 1 ≤ gid0 → gid0 < s.nextGameId →
       (s.gameById gid0).stage ≠ .notStarted → 0 < (s.gameById gid0).displayedPrice) := by
  refine ⟨⟨?_, ?_⟩, ?_, ?_, ?_, ?_⟩
  · rintro ⟨s', h⟩
    obtain ⟨hc, h1, h2, hl, hp, hstage, -⟩ := initializeGame_ok_elim h
    exact ⟨hc, h1, h2, hl, hp, hstage⟩
  · rintro ⟨hc, h1, h2, hl, hp, hstage⟩
    have hok : initializeGame caller gid lid price s =
        .ok (updateListingInArrays
          { s with gameById := fun i => if i = gid then
              initializedListing (s.gameById gid) lid price else s.gameById i }
          gid (initializedListing (s.gameById gid) lid price)) := by
      simp only [initializeGame]
      rw [if_pos hc, if_pos (And.intro h1 h2), if_pos hl, if_pos hp, if_pos hstage]
      rfl
    exact ⟨_, hok⟩
  · intro s' h
    obtain ⟨-, -, -, -, hp, -, hgb, -⟩ := initializeGame_ok_elim h
    rw [hgb]
    simp only [if_pos rfl]
    exact ⟨by simp [initializedListing], by simp [initializedListing],
      by simp [initializedListing], by simpa [initializedListing] using hp⟩
  · intro e h
    exact initializeGameRun_of_error h
  · intro op hid hstage
    rcases applyOp_gameById_cases op s gid hid with h | ⟨hpre, l, p, h⟩ |
      ⟨hpre, hi, h⟩ | ⟨hpre, a, h⟩
    · rw [h]
    · exact absurd hpre hstage
    · rw [h]; simp [guessedListing]
    · rw [h]; simp [settledListing]
  · intro hreach gid0 h1 h2 hstage
    have hInv := reachable_inv hreach
    exact hInv.2.2.2.2 (s.gameById gid0) (hInv.gameById_mem h1 h2).1 hstage

/-- Witness for C7: the owner initializes the `NotStarted` game 1 of
`sFix0` with listing 7 and displayed price 500. -/
theorem initializeGame_spec_witness :
    (∃ s', initializeGame 9 1 7 500 sFix0 = .ok s') ∧
    initializeGameRun 9 2 7 500 sFix0 = sFix0 :=
  ⟨(initializeGame_spec sFix0 9 1 7 500).1.mpr
     ⟨rfl, by decide, by decide, by decide, by decide, by decide⟩,
   (initializeGame_spec sFix0 9 2 7 500).2.2.1 .invalidGameId rfl⟩

/-- C2: a game's stage can only move forward, one step at a time, along
`NotStarted → Initialized → GuessSubmitted → Settled`; each mutator
called with the wrong pre-stage returns an error and leaves the state
unchanged; `Settled` is terminal, and once settled the game reads back
identically after any further operation. -/
theorem stage_lifecycle (s : ZState) (gid : Nat) (hid : gid < s.nextGameId) :
    (∀ op, (s.gameById gid).stage.idx ≤ ((applyOp op s).gameById gid).stage.idx ∧
           ((applyOp op s).gameById gid).stage.idx ≤ (s.gameById gid).stage.idx + 1) ∧
    (∀ op, (s.gameById gid).stage = .settled →
       (applyOp op s).gameById gid = s.gameById gid) ∧
    (∀ op, (s.gameById gid).stage = .settled →
       getGame (applyOp op s) gid = getGame s gid) ∧
    (∀ caller lid price, (s.gameById gid).stage ≠ .notStarted →
       (∃ e, initializeGame caller gid lid price s = .error e) ∧
       initializeGameRun caller gid lid price s = s) ∧
    (∀ caller hi, (s.gameById gid).stage ≠ .initialized →
       (∃ e, makeGuess caller gid hi s = .error e) ∧
       makeGuessRun caller gid hi s = s) ∧
    (∀ caller actual, (s.gameById gid).stage ≠ .guessSubmitted →
       (∃ e, settleBet caller gid actual s = .error e) ∧
       settleBetRun caller gid actual s = s) := by
  have hterm : ∀ op, (s.gameById gid).stage = .settled →
      (applyOp op s).gameById gid = s.gameById gid := by
    intro op hsettled
    rcases applyOp_gameById_cases op s gid hid with h | ⟨hpre, -, -, -⟩ |
      ⟨hpre, -, -⟩ | ⟨hpre, -, -⟩
    · exact h
    · rw [hsettled] at hpre; cases hpre
    · rw [hsettled] at hpre; cases hpre
    · rw [hsettled] at hpre; cases hpre
  refine ⟨?_, hterm, ?_, ?_, ?_, ?_⟩
  · intro op
    rcases applyOp_gameById_cases op s gid hid with h | ⟨hpre, l, p, h⟩ |
      ⟨hpre, hi, h⟩ | ⟨hpre, a, h⟩
    · rw [h]; omega
    · rw [h, hpre]; simp [initializedListing, GameStage.idx]
    · rw [h, hpre]; simp [guessedListing, GameStage.idx]
    · rw [h, hpre]; simp [settledListing, GameStage.idx]
  · intro op hsettled
    simp only [getGame]
    by_cases h0 : 0 < gid
    · rw [if_pos ⟨h0, lt_of_lt_of_le hid (applyOp_nextGameId_le op s)⟩,
        if_pos ⟨h0, hid⟩, hterm op hsettled]
    · rw [if_neg (by intro hcon; exact h0 hcon.1),
        if_neg (by intro hcon; exact h0 hcon.1)]
  · intro caller lid price hstage
    cases h : initializeGame caller gid lid price s with
    | ok s' => exact absurd (initializeGame_ok_elim h).2.2.2.2.2.1 hstage
    | error e => exact ⟨⟨e, rfl⟩, initializeGameRun_of_error h⟩
  · intro caller hi hstage
    cases h : makeGuess caller gid hi s with
    | ok s' => exact absurd (makeGuess_ok_elim h).2.2.2.1 hstage
    | error e => exact ⟨⟨e, rfl⟩, makeGuessRun_of_error h⟩
  · intro caller actual hstage
    cases h : settleBet caller gid actual s with
    | ok s' => exact absurd (settleBet_ok_elim h).2.2.2.2.1 hstage
    | error e => exact ⟨⟨e, rfl⟩, settleBetRun_of_error h⟩

/-- Witness for C2: on `sFix` (game 1 in `GuessSubmitted`) a repeated
initialization fails and changes nothing, and a guess retry fails and
changes nothing. -/
theorem stage_lifecycle_witness :
    ((∃ e, initializeGame 9 1 7 500 sFix = .error e) ∧
     initializeGameRun 9 1 7 500 sFix = sFix) ∧
    ((∃ e, makeGuess 1 1 false sFix = .error e) ∧
     makeGuessRun 1 1 false sFix = sFix) :=
  ⟨(stage_lifecycle sFix 1 (by decide)).2.2.2.1 9 7 500 (by decide),
   (stage_lifecycle sFix 1 (by decide)).2.2.2.2.1 1 false (by decide)⟩

end Zillopoly

namespace Zillopoly

/-- C8: in every reachable state the three storage copies agree: for each
existing id, `gameById` holds the record with that id, `allGames` holds it
exactly once, and the owner's `playerListings` entry holds it exactly
once; every per-player list is exactly the player's slice of `allGames`,
and the queries read these copies directly. -/
theorem storage_copies_agree (s : ZState) (h : Reachable s) :
    (∀ gid, 1 ≤ gid → gid < s.nextGameId →
       (s.gameById gid).gameId = gid ∧
       s.allGames.filter (fun g => g.gameId = gid) = [s.gameById gid] ∧
       (s.playerListings (s.gameById gid).player).filter (fun g => g.gameId = gid)
         = [s.gameById gid]) ∧
    (∀ p, s.playerListings p = s.allGames.filter (fun g => g.player = p)) ∧
    (∀ p st, getPlayerGamesByStage s p st =
       ((s.allGames.filter (fun g => g.player = p)).filter (fun g => g.stage = st)).length) ∧
    (∀ gid, 1 ≤ gid → gid < s.nextGameId → getGame s gid = .ok (s.gameById gid)) := by
  have hInv := reachable_inv h
  refine ⟨?_, hInv.2.2.2.1, ?_, ?_⟩
  · intro gid h1 h2
    obtain ⟨hmem, hgid⟩ := hInv.gameById_mem h1 h2
    have hu := filter_gameId_unique s.allGames (s.gameById gid) hInv.nodupIds hmem
    rw [hgid] at hu
    refine ⟨hgid, hu, ?_⟩
    rw [hInv.2.2.2.1 (s.gameById gid).player, List.filter_filter]
    have hcomm : (fun a : Listing =>
        decide (a.gameId = gid) && decide (a.player = (s.gameById gid).player)) =
        (fun a : Listing =>
          decide (a.player = (s.gameById gid).player) && decide (a.gameId = gid)) :=
      funext fun a => Bool.and_comm _ _
    rw [hcomm, ← List.filter_filter, hu]
    simp
  · intro p st
    show ((s.playerListings p).filter (fun l => l.stage = st)).length = _
    rw [hInv.2.2.2.1 p]
  · intro gid h1 h2
    simp only [getGame]
    rw [if_pos ⟨h1, h2⟩]

/-- Witness for C8: in the reachable state `sReach` (deploy, then one
batch purchase by player 1) the copies agree for game 3 and player 1's
listing view is exactly their slice of `allGames`. -/
theorem storage_copies_agree_witness :
    ((sReach.gameById 3).gameId = 3 ∧
     sReach.allGames.filter (fun g => g.gameId = 3) = [sReach.gameById 3] ∧
     (sReach.playerListings (sReach.gameById 3).player).filter (fun g => g.gameId = 3)
       = [sReach.gameById 3]) ∧
    sReach.playerListings 1 = sReach.allGames.filter (fun g => g.player = 1) :=
  have hr : Reachable sReach :=
    Reachable.step (initState 9 tokFix 5) (Op.start 1 0) (Reachable.deploy 9 tokFix 5)
  ⟨(storage_copies_agree sReach hr).1 3 (by decide) (by decide),
   (storage_copies_agree sReach hr).2.1 1⟩

/-- C10: in every reachable state `getTotalGames` equals `nextGameId - 1`,
ids are the contiguous block `1 … nextGameId - 1` assigned in order, each
existing id names a record carrying that id, and no operation other than
`startGame` changes `nextGameId` or the number of games. -/
theorem sequential_ids (s : ZState) (h : Reachable s) :
    getTotalGames s = s.nextGameId - 1 ∧
    1 ≤ s.nextGameId ∧
    s.allGames.map (fun g => g.gameId) = List.range' 1 (s.nextGameId - 1) ∧
    (∀ gid, 1 ≤ gid → gid < s.nextGameId → (s.gameById gid).gameId = gid) ∧
    (∀ c gid l p, (initializeGameRun c gid l p s).nextGameId = s.nextGameId ∧
       getTotalGames (initializeGameRun c gid l p s) = getTotalGames s) ∧
    (∀ c gid hi, (makeGuessRun c gid hi s).nextGameId = s.nextGameId ∧
       getTotalGames (makeGuessRun c gid hi s) = getTotalGames s) ∧
    (∀ c gid a, (settleBetRun c gid a s).nextGameId = s.nextGameId ∧
       getTotalGames (settleBetRun c gid a s) = getTotalGames s) ∧
    (∀ c a, (withdrawFundsRun c a s).nextGameId = s.nextGameId ∧
       getTotalGames (withdrawFundsRun c a s) = getTotalGames s) := by
  have hInv := reachable_inv h
  refine ⟨?_, hInv.1, hInv.2.1, ?_, ?_, ?_, ?_, ?_⟩
  · have hlen := congrArg List.length hInv.2.1
    simpa [getTotalGames] using hlen
  · intro gid h1 h2
    exact (hInv.gameById_mem h1 h2).2
  · intro c gid l p
    cases hop : initializeGame c gid l p s with
    | error e => rw [initializeGameRun_of_error hop]; exact ⟨rfl, rfl⟩
    | ok s' =>
      rw [initializeGameRun_of_ok hop]
      obtain ⟨-, -, -, -, -, -, -, hn, -, -, -, hag, -⟩ := initializeGame_ok_elim hop
      exact ⟨hn, by simp [getTotalGames, hag, replaceFirstById_length]⟩
  · intro c gid hi
    cases hop : makeGuess c gid hi s with
    | error e => rw [makeGuessRun_of_error hop]; exact ⟨rfl, rfl⟩
    | ok s' =>
      rw [makeGuessRun_of_ok hop]
      obtain ⟨-, -, -, -, -, hn, -, -, -, hag, -⟩ := makeGuess_ok_elim hop
      exact ⟨hn, by simp [getTotalGames, hag, replaceFirstById_length]⟩
  · intro c gid a
    cases hop : settleBet c gid a s with
    | error e => rw [settleBetRun_of_error hop]; exact ⟨rfl, rfl⟩
    | ok s' =>
      rw [settleBetRun_of_ok hop]
      obtain ⟨-, -, -, -, -, -, hn, -, -, hag, -, -⟩ := settleBet_ok_elim hop
      exact ⟨hn, by simp [getTotalGames, hag, replaceFirstById_length]⟩
  · intro c a
    cases hop : withdrawFunds c a s with
    | error e => rw [withdrawFundsRun_of_error hop]; exact ⟨rfl, rfl⟩
    | ok s' =>
      rw [withdrawFundsRun_of_ok hop]
      obtain ⟨-, hag, -, hn, -, -⟩ := withdrawFunds_ok_elim hop
      exact ⟨hn, by simp [getTotalGames, hag]⟩

/-- Witness for C10: after one batch purchase on a fresh deployment there
are 10 games and `nextGameId = 11`. -/
theorem sequential_ids_witness :
    getTotalGames sReach = sReach.nextGameId - 1 ∧
    (sReach.gameById 7).gameId = 7 :=
  have hr : Reachable sReach :=
    Reachable.step (initState 9 tokFix 5) (Op.start 1 0) (Reachable.deploy 9 tokFix 5)
  ⟨(sequential_ids sReach hr).1,
   (sequential_ids sReach hr).2.2.2.1 7 (by decide) (by decide)⟩

end Zillopoly

namespace ZillopolyApi

/-- Counterexample for C9: on an upstream failure the endpoint does answer
with status 500, but its body is `{error, details}` — it contains no
`success` field at all, so the claimed `{success:false, error}` response
shape is wrong for the HTTP surface (that object is only the internal
fetch result, which the route does not forward). -/
theorem random_listing_error_shape_counterexample :
    (randomListingHandler "Miami, FL" false 404 none 0 0).status = 500 ∧
    hasKey (randomListingHandler "Miami, FL" false 404 none 0 0).body "success" = false ∧
    hasKey (randomListingHandler "Miami, FL" false 404 none 0 0).body "error" = true ∧
    hasKey (randomListingHandler "Miami, FL" false 404 none 0 0).body "details" = true :=
  ⟨rfl, rfl, rfl, rfl⟩

/-- C9 (amended): a successful upstream fetch yields a 200 response whose
body carries `success`, `city`, `listing` and `contractData` (with
`listingId` and `displayedPrice`); any upstream failure or empty result
set yields a 500 response whose body is
`{error: 'Failed to fetch listing', details}` — carrying no fabricated
listing data and no `success` flag. -/
theorem random_listing_endpoint (city : String) (respOk : Bool) (statusCode : Nat)
    (props : Option (List PropListing)) (pick dp : Nat) :
    (∀ body, fetchRandomListing city respOk statusCode props pick dp = .ok body →
       randomListingHandler city respOk statusCode props pick dp = ⟨200, body⟩ ∧
       hasKey body "success" = true ∧ hasKey body "city" = true ∧
       hasKey body "listing" = true ∧ hasKey body "contractData" = true ∧
       hasKey2 body "contractData" "listingId" = true ∧
       hasKey2 body "contractData" "displayedPrice" = true) ∧
    (∀ msg, fetchRandomListing city respOk statusCode props pick dp = .fail msg →
       (randomListingHandler city respOk statusCode props pick dp).status = 500 ∧
       (randomListingHandler city respOk statusCode props pick dp).body =
         .jobj [("error", .jstr "Failed to fetch listing"), ("details", .jstr msg)] ∧
       hasKey (randomListingHandler city respOk statusCode props pick dp).body "listing"
         = false ∧
       hasKey (randomListingHandler city respOk statusCode props pick dp).body "contractData"
         = false ∧
       hasKey (randomListingHandler city respOk statusCode props pick dp).body "success"
         = false) ∧
    ((respOk = false ∨ props = none ∨ props = some []) →
       ∃ msg, fetchRandomListing city respOk statusCode props pick dp = .fail msg) := by
  refine ⟨?_, ?_, ?_⟩
  · intro body hok
    have hhand : randomListingHandler city respOk statusCode props pick dp = ⟨200, body⟩ := by
      simp only [randomListingHandler, hok]
    refine ⟨hhand, ?_⟩
    simp only [fetchRandomListing] at hok
    split at hok <;> try (cases hok)
    split at hok <;> try (cases hok)
    exact ⟨rfl, rfl, rfl, rfl, rfl, rfl⟩
  · intro msg hfail
    have hhand : randomListingHandler city respOk statusCode props pick dp =
        { status := 500
          body := .jobj [("error", .jstr "Failed to fetch listing"),
                         ("details", .jstr msg)] } := by
      simp only [randomListingHandler, hfail]
    rw [hhand]
    exact ⟨rfl, rfl, rfl, rfl, rfl⟩
  · intro hcase
    by_cases hr : respOk = false
    · exact ⟨"RapidAPI responded with status: " ++ toString statusCode,
        by simp only [fetchRandomListing, if_pos hr]⟩
    · rcases hcase with h | h | h
      · exact absurd h hr
      · subst h
        exact ⟨"No listings found in the response",
          by simp only [fetchRandomListing, if_neg hr]⟩
      · subst h
        exact ⟨"No listings found in the response",
          by simp only [fetchRandomListing, if_neg hr]⟩

/-- Witness for C9: an empty upstream result set produces the 500 error
body, and a one-listing result set produces the 200 success body with the
contract fields present. -/
theorem random_listing_endpoint_witness :
    ((randomListingHandler "Austin, TX" true 200 (some []) 0 0).status = 500 ∧
     (randomListingHandler "Austin, TX" true 200 (some []) 0 0).body =
       .jobj [("error", .jstr "Failed to fetch listing"),
              ("details", .jstr "No listings found in the response")]) ∧
    (randomListingHandler "Austin, TX" true 200 (some [pFix]) 0 95000 =
       ⟨200, apiOkBody⟩ ∧
     hasKey2 apiOkBody "contractData" "displayedPrice" = true) :=
  have hfail := (random_listing_endpoint "Austin, TX" true 200 (some []) 0 0).2.1
    "No listings found in the response" rfl
  have hok := (random_listing_endpoint "Austin, TX" true 200 (some [pFix]) 0 95000).1
    apiOkBody rfl
  ⟨⟨hfail.1, hfail.2.1⟩, ⟨hok.1, hok.2.2.2.2.2.2⟩⟩

end ZillopolyApi
